import Mathlib

/-!
# LARPChecker core pipeline — verification development

Shallow embedding of the resource-aware job orchestration pipeline of the
LARPChecker repository: the priority queue (`src/services/queue.service.ts`),
the resource manager (`ResourceManager`), the status/retry manager
(`src/services/repository-processing/status-manager.ts`), the TTL cache
(`CacheService`), the backoff computation, and the orchestrator's
`processQueue` staged execution with one-hop fallback
(`src/services/repository.service.ts`).

Machine integers are modelled as `Nat`; fractional quantities (storage
percentage, CPU/memory load, jittered delays) as `ℚ`; `Date`/`Date.now()`
values as `Nat` milliseconds; JavaScript `Map` objects as association lists
with replace-on-set semantics; fallible operations return `Except`/`Option`.
-/

namespace LARPChecker

/-! ## Association lists with JavaScript `Map` semantics -/

/-- `Map.set`: replace the binding if the key is present, else append. -/
def setKey {α : Type} : List (String × α) → String → α → List (String × α)
  | [], k, v => [(k, v)]
  | (k', v') :: rest, k, v =>
      if k' = k then (k, v) :: rest else (k', v') :: setKey rest k v

/-- `Map.get`: the value bound to the key, if any. -/
def getKey {α : Type} : List (String × α) → String → Option α
  | [], _ => none
  | (k', v') :: rest, k => if k' = k then some v' else getKey rest k

/-- `Map.delete`: drop the binding for the key. -/
def delKey {α : Type} : List (String × α) → String → List (String × α)
  | [], _ => []
  | (k', v') :: rest, k =>
      if k' = k then rest else (k', v') :: delKey rest k

theorem getKey_setKey_self {α : Type} (m : List (String × α)) (k : String) (v : α) :
    getKey (setKey m k v) k = some v := by
  induction m with
  | nil => simp [setKey, getKey]
  | cons hd tl ih =>
      obtain ⟨k', v'⟩ := hd
      by_cases h : k' = k <;> simp [setKey, getKey, h, ih]

theorem getKey_setKey_ne {α : Type} (m : List (String × α)) (k k' : String) (v : α)
    (h : k ≠ k') : getKey (setKey m k v) k' = getKey m k' := by
  induction m with
  | nil => simp [setKey, getKey, h]
  | cons hd tl ih =>
      obtain ⟨k₀, v₀⟩ := hd
      by_cases h₀ : k₀ = k
      · simp [setKey, getKey, h₀, h]
      · simp only [setKey, if_neg h₀]
        by_cases h₁ : k₀ = k' <;> simp [getKey, h₁, ih]

theorem getKey_eq_none_of_forall {α : Type} (m : List (String × α)) (k : String)
    (h : ∀ p ∈ m, p.1 ≠ k) : getKey m k = none := by
  induction m with
  | nil => simp [getKey]
  | cons hd tl ih =>
      obtain ⟨k₀, v₀⟩ := hd
      have hne : k₀ ≠ k := h (k₀, v₀) (by simp)
      simp only [getKey, if_neg hne]
      exact ih (fun p hp => h p (List.mem_cons_of_mem _ hp))

theorem getKey_delKey_self {α : Type} (m : List (String × α)) (k : String)
    (hnd : m.Pairwise (fun a b => a.1 ≠ b.1)) : getKey (delKey m k) k = none := by
  induction m with
  | nil => simp [delKey, getKey]
  | cons hd tl ih =>
      obtain ⟨k₀, v₀⟩ := hd
      rw [List.pairwise_cons] at hnd
      by_cases h₀ : k₀ = k
      · subst h₀
        simp only [delKey, if_pos rfl]
        exact getKey_eq_none_of_forall tl k₀ (fun p hp h => hnd.1 p hp h.symm)
      · simp [delKey, getKey, h₀, ih hnd.2]

/-! ## Queue service (`src/services/queue.service.ts`)

The durable queue rows (`prisma.analysisQueue`) are modelled as a list of
`QueueItem` in creation order; the in-memory `processingItems : Set<string>`
as a duplicate-free list of repository URLs.
-/

/-- `QueueStatus` from `src/types/interfaces.ts`. -/
inductive QueueStatus
  | pending | processing | completed | failed | cancelled
  deriving DecidableEq, Repr

/-- One `analysisQueue` row. -/
structure QueueItem where
  id : Nat
  repositoryUrl : String
  status : QueueStatus
  priority : Nat
  userId : String
  createdAt : Nat
  startedAt : Option Nat
  completedAt : Option Nat
  deriving DecidableEq, Repr

/-- `IQueueConfig` with the `DEFAULT_CONFIG` field set. -/
structure IQueueConfig where
  maxRetries : Nat
  retryDelay : Nat
  maxConcurrent : Nat
  priorityLevels : Nat
  defaultPriority : Nat
  processingTimeout : Nat
  deriving DecidableEq, Repr

/-- `DEFAULT_CONFIG` of `queue.service.ts`. -/
def DEFAULT_CONFIG : IQueueConfig :=
  { maxRetries := 3, retryDelay := 5000, maxConcurrent := 5,
    priorityLevels := 5, defaultPriority := 2, processingTimeout := 300000 }

/-- The state a `QueueService` instance acts on: the store rows plus the
in-memory `processingItems` set. -/
structure QueueState where
  items : List QueueItem
  processingItems : List String
  deriving DecidableEq, Repr

/-- `Set.add`: insert a URL unless already present. -/
def setAdd (s : List String) (x : String) : List String :=
  if x ∈ s then s else s ++ [x]

/-- `QueueService.enqueue(repositoryUrl, userId)`: creates a Pending row with
`priority: this.config.defaultPriority`.  The method takes no priority
argument. -/
def enqueue (cfg : IQueueConfig) (st : QueueState) (repositoryUrl userId : String)
    (id now : Nat) : QueueState :=
  { st with items := st.items ++
      [{ id := id, repositoryUrl := repositoryUrl, status := QueueStatus.pending,
         priority := cfg.defaultPriority, userId := userId, createdAt := now,
         startedAt := none, completedAt := none }] }

/-- Modelled from the spec: the Queue operation
`enqueue(subject, submitter, priority=default) -> void`, which stores the
caller-supplied priority and falls back to the configured default only when
the argument is omitted.  Stated only to be compared with the source
`enqueue`, which has no priority parameter. -/
def enqueueSpec (cfg : IQueueConfig) (st : QueueState) (repositoryUrl userId : String)
    (priority : Option Nat) (id now : Nat) : QueueState :=
  { st with items := st.items ++
      [{ id := id, repositoryUrl := repositoryUrl, status := QueueStatus.pending,
         priority := priority.getD cfg.defaultPriority, userId := userId,
         createdAt := now, startedAt := none, completedAt := none }] }

/-- The `orderBy: [{priority: 'desc'}, {createdAt: 'asc'}]` comparison:
`a` sorts strictly before `b`. -/
def betterThan (a b : QueueItem) : Bool :=
  decide (b.priority < a.priority ∨ (a.priority = b.priority ∧ a.createdAt < b.createdAt))

/-- `prisma.analysisQueue.findFirst({where: {status: PENDING}, orderBy:
[{priority:'desc'},{createdAt:'asc'}]})`: the first Pending row under the
ordering, earliest-stored row winning full ties. -/
def findBestPending : List QueueItem → Option QueueItem
  | [] => none
  | it :: rest =>
      let r := findBestPending rest
      if it.status = QueueStatus.pending then
        match r with
        | none => some it
        | some cur => if betterThan cur it then some cur else some it
      else r

/-- `QueueService.dequeue()`: returns `null` at the concurrency cap, else the
best Pending row, marked Processing with `startedAt` set, its URL added to
`processingItems`. -/
def dequeue (cfg : IQueueConfig) (st : QueueState) (now : Nat) :
    Option String × QueueState :=
  if cfg.maxConcurrent ≤ st.processingItems.length then (none, st)
  else
    match findBestPending st.items with
    | none => (none, st)
    | some it =>
        (some it.repositoryUrl,
          { items := st.items.map (fun j =>
              if j.id = it.id then
                { j with status := QueueStatus.processing, startedAt := some now }
              else j),
            processingItems := setAdd st.processingItems it.repositoryUrl })

/-! ### Queue lemmas -/

theorem findBestPending_none_iff (l : List QueueItem) :
    findBestPending l = none ↔ ∀ it ∈ l, it.status ≠ QueueStatus.pending := by
  induction l with
  | nil => simp [findBestPending]
  | cons hd tl ih =>
      by_cases h : hd.status = QueueStatus.pending
      · simp only [findBestPending, if_pos h]
        constructor
        · intro hcontra
          exfalso
          cases hr : findBestPending tl with
          | none => rw [hr] at hcontra; exact Option.noConfusion hcontra
          | some cur =>
              rw [hr] at hcontra
              by_cases hb : betterThan cur hd <;> simp [hb] at hcontra
        · intro hall
          exact absurd h (hall hd (by simp))
      · simp only [findBestPending, if_neg h]
        rw [ih]
        constructor
        · intro hall it hit
          rcases List.mem_cons.mp hit with rfl | hmem
          · exact h
          · exact hall it hmem
        · intro hall it hit
          exact hall it (List.mem_cons_of_mem _ hit)

theorem findBestPending_mem_pending (l : List QueueItem) (it : QueueItem)
    (h : findBestPending l = some it) :
    it ∈ l ∧ it.status = QueueStatus.pending := by
  induction l generalizing it with
  | nil => simp [findBestPending] at h
  | cons hd tl ih =>
      by_cases hp : hd.status = QueueStatus.pending
      · simp only [findBestPending, if_pos hp] at h
        cases hr : findBestPending tl with
        | none =>
            rw [hr] at h
            simp only [Option.some.injEq] at h
            exact ⟨by simp [← h], by rw [← h]; exact hp⟩
        | some cur =>
            rw [hr] at h
            by_cases hb : betterThan cur hd
            · simp only [if_pos hb, Option.some.injEq] at h
              obtain ⟨hmem, hst⟩ := ih it (h ▸ hr)
              exact ⟨List.mem_cons_of_mem _ hmem, hst⟩
            · simp only [if_neg hb, Option.some.injEq] at h
              exact ⟨by simp [← h], by rw [← h]; exact hp⟩
      · simp only [findBestPending, if_neg hp] at h
        obtain ⟨hmem, hst⟩ := ih it h
        exact ⟨List.mem_cons_of_mem _ hmem, hst⟩

/-- An item that does not sort strictly before another is priority-below it or
tied with a later-or-equal `createdAt`. -/
theorem not_betterThan_key (a b : QueueItem) (hab : ¬ betterThan a b = true) :
    a.priority < b.priority ∨ (a.priority = b.priority ∧ b.createdAt ≤ a.createdAt) := by
  simp only [betterThan, decide_eq_true_eq] at hab
  push_neg at hab
  rcases Nat.lt_trichotomy a.priority b.priority with hlt | heq | hgt
  · exact Or.inl hlt
  · exact Or.inr ⟨heq, hab.2 heq⟩
  · exact absurd hgt (not_lt.mpr hab.1)

theorem findBestPending_maximal (l : List QueueItem) (it : QueueItem)
    (h : findBestPending l = some it) :
    ∀ j ∈ l, j.status = QueueStatus.pending →
      j.priority < it.priority ∨
        (j.priority = it.priority ∧ it.createdAt ≤ j.createdAt) := by
  induction l generalizing it with
  | nil => simp [findBestPending] at h
  | cons hd tl ih =>
      intro j hj hjp
      by_cases hp : hd.status = QueueStatus.pending
      · simp only [findBestPending, if_pos hp] at h
        cases hr : findBestPending tl with
        | none =>
            rw [hr] at h
            simp only [Option.some.injEq] at h
            subst h
            rcases List.mem_cons.mp hj with rfl | hmem
            · exact Or.inr ⟨rfl, le_refl _⟩
            · exact absurd hjp ((findBestPending_none_iff tl).mp hr j hmem)
        | some cur =>
            rw [hr] at h
            by_cases hb : betterThan cur hd
            · simp only [if_pos hb, Option.some.injEq] at h
              rcases List.mem_cons.mp hj with rfl | hmem
              · -- `j` is the head, which `cur = it` beats strictly
                subst h
                simp only [betterThan, decide_eq_true_eq] at hb
                rcases hb with hlt | ⟨heq, hcl⟩
                · exact Or.inl hlt
                · exact Or.inr ⟨heq.symm, le_of_lt hcl⟩
              · exact ih it (h ▸ hr) j hmem hjp
            · simp only [if_neg hb, Option.some.injEq] at h
              rcases List.mem_cons.mp hj with rfl | hmem
              · subst h
                exact Or.inr ⟨rfl, le_refl _⟩
              · -- `j` is below `cur`, and `cur` does not beat the head `it`
                have hj' := ih cur hr j hmem hjp
                have hc' := not_betterThan_key cur hd hb
                subst h
                rcases hj' with hlt | ⟨heq, hle⟩
                · rcases hc' with hlt' | ⟨heq', _⟩
                  · exact Or.inl (lt_trans hlt hlt')
                  · exact Or.inl (heq' ▸ hlt)
                · rcases hc' with hlt' | ⟨heq', hle'⟩
                  · exact Or.inl (heq ▸ hlt')
                  · exact Or.inr ⟨heq.trans heq', le_trans hle' hle⟩
      · simp only [findBestPending, if_neg hp] at h
        rcases List.mem_cons.mp hj with rfl | hmem
        · exact absurd hjp hp
        · exact ih it h j hmem hjp

theorem setAdd_length_le (s : List String) (x : String) :
    (setAdd s x).length ≤ s.length + 1 := by
  unfold setAdd
  by_cases h : x ∈ s <;> simp [h]

/-! ### Claim theorems on the queue -/

/-- C1: when at least one Pending item exists and the active-processing count
is below `maxConcurrent`, `dequeue()` returns the Pending item with the
numerically highest priority, ties broken by earliest `createdAt`, and marks
that item Processing; it returns none when no Pending item exists. -/
theorem dequeue_returns_best_pending (cfg : IQueueConfig) (st : QueueState) (now : Nat)
    (hcap : st.processingItems.length < cfg.maxConcurrent) :
    ((∃ it ∈ st.items, it.status = QueueStatus.pending) →
      ∃ it, it ∈ st.items ∧ it.status = QueueStatus.pending ∧
        (dequeue cfg st now).1 = some it.repositoryUrl ∧
        (∀ j ∈ st.items, j.status = QueueStatus.pending →
          j.priority < it.priority ∨
            (j.priority = it.priority ∧ it.createdAt ≤ j.createdAt)) ∧
        { it with status := QueueStatus.processing, startedAt := some now } ∈
          (dequeue cfg st now).2.items)
    ∧ ((∀ it ∈ st.items, it.status ≠ QueueStatus.pending) →
        (dequeue cfg st now).1 = none) := by
  have hcap' : ¬ cfg.maxConcurrent ≤ st.processingItems.length := not_le.mpr hcap
  constructor
  · rintro ⟨it₀, hmem₀, hp₀⟩
    cases hfb : findBestPending st.items with
    | none =>
        exact absurd hp₀ ((findBestPending_none_iff st.items).mp hfb it₀ hmem₀)
    | some it =>
        obtain ⟨hmem, hpend⟩ := findBestPending_mem_pending st.items it hfb
        refine ⟨it, hmem, hpend, ?_, findBestPending_maximal st.items it hfb, ?_⟩
        · simp [dequeue, hcap', hfb]
        · simp only [dequeue, if_neg hcap', hfb]
          exact List.mem_map.mpr ⟨it, hmem, by simp⟩
  · intro hall
    have hfb : findBestPending st.items = none :=
      (findBestPending_none_iff st.items).mpr hall
    simp [dequeue, hcap', hfb]

/-- A sample low-priority Pending row. -/
def sampleItemA : QueueItem :=
  { id := 0, repositoryUrl := "a", status := QueueStatus.pending, priority := 1,
    userId := "u", createdAt := 0, startedAt := none, completedAt := none }

/-- A sample high-priority Pending row, created later. -/
def sampleItemB : QueueItem :=
  { id := 1, repositoryUrl := "b", status := QueueStatus.pending, priority := 5,
    userId := "u", createdAt := 1, startedAt := none, completedAt := none }

/-- A two-item backlog with nothing Processing. -/
def sampleQueue : QueueState :=
  { items := [sampleItemA, sampleItemB], processingItems := [] }

/-- A queue at the `DEFAULT_CONFIG` concurrency cap with a Pending backlog. -/
def saturatedQueue : QueueState :=
  { items := [sampleItemA], processingItems := ["r1", "r2", "r3", "r4", "r5"] }

/-- C1 witness: on a two-item backlog with priorities 1 and 5, `dequeue`
picks the priority-5 item and marks it Processing. -/
theorem dequeue_returns_best_pending_witness :
    ∃ it, it ∈ sampleQueue.items ∧ it.status = QueueStatus.pending ∧
      (dequeue DEFAULT_CONFIG sampleQueue 7).1 = some it.repositoryUrl ∧
      (∀ j ∈ sampleQueue.items, j.status = QueueStatus.pending →
        j.priority < it.priority ∨
          (j.priority = it.priority ∧ it.createdAt ≤ j.createdAt)) ∧
      { it with status := QueueStatus.processing, startedAt := some 7 } ∈
        (dequeue DEFAULT_CONFIG sampleQueue 7).2.items :=
  (dequeue_returns_best_pending DEFAULT_CONFIG sampleQueue 7 (by decide)).1
    ⟨sampleItemB, by simp [sampleQueue], rfl⟩

/-- C2: `dequeue()` returns none whenever the active-processing count is at or
above `maxConcurrent` (leaving the state unchanged), and the count of
concurrently Processing URLs tracked by the queue never exceeds
`maxConcurrent` across a `dequeue`. -/
theorem dequeue_never_exceeds_maxConcurrent (cfg : IQueueConfig) (st : QueueState)
    (now : Nat) :
    (cfg.maxConcurrent ≤ st.processingItems.length →
      (dequeue cfg st now).1 = none ∧ (dequeue cfg st now).2 = st)
    ∧ (st.processingItems.length ≤ cfg.maxConcurrent →
        (dequeue cfg st now).2.processingItems.length ≤ cfg.maxConcurrent) := by
  constructor
  · intro hc
    constructor <;> simp [dequeue, hc]
  · intro hle
    by_cases hc : cfg.maxConcurrent ≤ st.processingItems.length
    · simp [dequeue, hc]
      exact hle
    · have hlt : st.processingItems.length < cfg.maxConcurrent := not_le.mp hc
      cases hfb : findBestPending st.items with
      | none => simpa [dequeue, hc, hfb] using hle
      | some it =>
          simp only [dequeue, if_neg hc, hfb]
          calc (setAdd st.processingItems it.repositoryUrl).length
              ≤ st.processingItems.length + 1 := setAdd_length_le _ _
            _ ≤ cfg.maxConcurrent := Nat.succ_le_of_lt hlt

/-- C2 witness: with `maxConcurrent = 5` and five URLs already Processing,
`dequeue` yields none despite a Pending backlog, and the Processing count
stays at the cap. -/
theorem dequeue_never_exceeds_maxConcurrent_witness :
    ((dequeue DEFAULT_CONFIG saturatedQueue 0).1 = none ∧
      (dequeue DEFAULT_CONFIG saturatedQueue 0).2 = saturatedQueue)
    ∧ (dequeue DEFAULT_CONFIG saturatedQueue 0).2.processingItems.length ≤
        DEFAULT_CONFIG.maxConcurrent :=
  ⟨(dequeue_never_exceeds_maxConcurrent DEFAULT_CONFIG saturatedQueue 0).1
      (by decide),
    (dequeue_never_exceeds_maxConcurrent DEFAULT_CONFIG saturatedQueue 0).2
      (by decide)⟩

/-- C8 counterexample: `QueueService.enqueue` has no priority parameter; the
row it creates always carries `defaultPriority` (2 under `DEFAULT_CONFIG`),
whereas the spec-level `enqueue(subject, submitter, priority=default)` called
with priority 5 would store 5. -/
theorem enqueue_ignores_caller_priority :
    ((enqueue DEFAULT_CONFIG ⟨[], []⟩ "repo" "user" 0 0).items.map
        (fun it => it.priority) = [2])
    ∧ ((enqueueSpec DEFAULT_CONFIG ⟨[], []⟩ "repo" "user" (some 5) 0 0).items.map
        (fun it => it.priority) = [5])
    ∧ (2 : Nat) ≠ 5 :=
  ⟨rfl, rfl, by decide⟩

/-- C8 amended: `enqueue` takes only the subject and submitter; the created
row is Pending and always carries the configured `defaultPriority` (which is
the priority `dequeue` later orders by). -/
theorem enqueue_stores_default_priority (cfg : IQueueConfig) (st : QueueState)
    (repositoryUrl userId : String) (id now : Nat) :
    ∃ itm, (enqueue cfg st repositoryUrl userId id now).items = st.items ++ [itm] ∧
      itm.priority = cfg.defaultPriority ∧
      itm.status = QueueStatus.pending ∧
      itm.repositoryUrl = repositoryUrl ∧
      itm.userId = userId ∧
      (enqueue cfg st repositoryUrl userId id now).processingItems =
        st.processingItems :=
  ⟨_, rfl, rfl, rfl, rfl, rfl, rfl⟩

/-! ## Resource manager (`ResourceManager`)

`checkResources` aggregates storage, queue, rate-limit and system metrics
into a `ResourceMetrics` whose `available` flag is the conjunction of the
four sub-checks; `validateResources` returns `true` when available and
otherwise throws a `ResourceError` — it never returns `false`.
-/

/-- `IRateLimit` (the fields the availability check reads). -/
structure IRateLimit where
  limit : Nat
  remaining : Nat
  deriving DecidableEq, Repr

/-- `isRateLimitCritical`: `remaining <= Math.ceil(limit * 0.1)`; the ceiling
of a tenth of a natural `limit` is `(limit + 9) / 10`. -/
def isRateLimitCritical (l : IRateLimit) : Bool :=
  decide (l.remaining ≤ (l.limit + 9) / 10)

/-- The external readings `checkResources` samples: storage metrics and
quota, queue metrics, the rate-limit map, and host CPU/memory load. -/
structure ResourceInputs where
  storageUsed : Nat
  storageQuota : Nat
  activeProcessing : Nat
  maxConcurrent : Nat
  rateLimits : List IRateLimit
  cpuUsage : ℚ
  memoryUsage : ℚ
  deriving DecidableEq, Repr

/-- The fields of `ResourceMetrics` the availability decision reads. -/
structure ResourceMetrics where
  storagePercentage : ℚ
  active : Nat
  maxConcurrent : Nat
  rateLimits : List IRateLimit
  isHealthy : Bool
  available : Bool
  deriving DecidableEq, Repr

/-- `ResourceManager.checkResources`: builds the metrics snapshot and sets
`available` to the AND of the storage, queue-capacity, rate-limit and
system-health sub-checks (thresholds 0.9, `maxConcurrent`, the 10% buffer,
and 0.9/0.9). -/
def checkResources (inp : ResourceInputs) : ResourceMetrics :=
  let pct : ℚ := (inp.storageUsed : ℚ) / (inp.storageQuota : ℚ)
  let isHealthy := decide (inp.cpuUsage < 9/10) && decide (inp.memoryUsage < 9/10)
  let isStorageAvailable := decide (pct < 9/10)
  let isQueueAvailable := decide (inp.activeProcessing < inp.maxConcurrent)
  let areRateLimitsAvailable := inp.rateLimits.all (fun l => ! isRateLimitCritical l)
  { storagePercentage := pct,
    active := inp.activeProcessing,
    maxConcurrent := inp.maxConcurrent,
    rateLimits := inp.rateLimits,
    isHealthy := isHealthy,
    available := isStorageAvailable && isQueueAvailable &&
      areRateLimitsAvailable && isHealthy }

/-- `ResourceErrorCode`. -/
inductive ResourceErrorCode
  | resourceInvalid | systemError | rateLimitExceeded | cleanupFailed
  deriving DecidableEq, Repr

/-- `ResourceError` (code plus the itemized `reasons` detail). -/
structure ResourceError where
  code : ResourceErrorCode
  reasons : List String
  deriving DecidableEq, Repr

/-- `ResourceManager.validateResources`: recomputes the metrics; when
`available` it returns `true`, otherwise it throws `ResourceError
RESOURCE_INVALID` with the itemized reasons (storage, queue capacity, system
health — the code lists no reason for a critical rate limit). -/
def validateResources (inp : ResourceInputs) : Except ResourceError Bool :=
  let m := checkResources inp
  if m.available then Except.ok true
  else Except.error
    { code := ResourceErrorCode.resourceInvalid,
      reasons :=
        (if 9/10 ≤ m.storagePercentage then ["Storage quota exceeded"] else []) ++
        (if m.maxConcurrent ≤ m.active then ["Queue capacity reached"] else []) ++
        (if m.isHealthy then [] else ["System resources constrained"]) }

/-- Inputs with storage at 95% of quota and every other sub-check passing. -/
def storageFullInputs : ResourceInputs :=
  { storageUsed := 95, storageQuota := 100, activeProcessing := 0,
    maxConcurrent := 5, rateLimits := [], cpuUsage := 0, memoryUsage := 0 }

/-- C3 counterexample: with storage at 95% (≥ 0.9) `validateResources` does
not return `false` — it throws a `RESOURCE_INVALID` `ResourceError`.  The
claim that it "returns false" fails at this input. -/
theorem validateResources_storage_full_throws :
    validateResources storageFullInputs =
      Except.error { code := ResourceErrorCode.resourceInvalid,
                     reasons := ["Storage quota exceeded"] } ∧
    (9 : ℚ)/10 ≤ (checkResources storageFullInputs).storagePercentage ∧
    validateResources storageFullInputs ≠ Except.ok false := by
  have h1 : validateResources storageFullInputs =
      Except.error { code := ResourceErrorCode.resourceInvalid,
                     reasons := ["Storage quota exceeded"] } := by
    norm_num [validateResources, checkResources, storageFullInputs]
  refine ⟨h1, by norm_num [checkResources, storageFullInputs], ?_⟩
  rw [h1]
  intro h
  exact Except.noConfusion h

/-- C3 amended: `available` equals the conjunction of the four sub-checks;
`validateResources` throws a `ResourceError` whenever the storage fraction is
≥ 0.9 (independent of the other metrics), returns `true` exactly when all
four sub-checks pass, and never returns `false`. -/
theorem validateResources_admission_gate (inp : ResourceInputs) :
    ((checkResources inp).available = true ↔
      ((inp.storageUsed : ℚ) / (inp.storageQuota : ℚ) < 9/10 ∧
        inp.activeProcessing < inp.maxConcurrent ∧
        (∀ l ∈ inp.rateLimits, isRateLimitCritical l = false) ∧
        (inp.cpuUsage < 9/10 ∧ inp.memoryUsage < 9/10)))
    ∧ ((9 : ℚ)/10 ≤ (inp.storageUsed : ℚ) / (inp.storageQuota : ℚ) →
        ∃ e, validateResources inp = Except.error e)
    ∧ (validateResources inp = Except.ok true ↔
        (checkResources inp).available = true)
    ∧ validateResources inp ≠ Except.ok false := by
  have havail : (checkResources inp).available = true ↔
      ((inp.storageUsed : ℚ) / (inp.storageQuota : ℚ) < 9/10 ∧
        inp.activeProcessing < inp.maxConcurrent ∧
        (∀ l ∈ inp.rateLimits, isRateLimitCritical l = false) ∧
        (inp.cpuUsage < 9/10 ∧ inp.memoryUsage < 9/10)) := by
    simp only [checkResources, Bool.and_eq_true, decide_eq_true_eq,
      List.all_eq_true, Bool.not_eq_true']
    tauto
  refine ⟨havail, ?_, ?_, ?_⟩
  · intro hfull
    have hnav : (checkResources inp).available = false := by
      rw [Bool.eq_false_iff]
      intro hav
      rw [havail] at hav
      exact absurd hfull (not_le.mpr hav.1)
    cases hv : validateResources inp with
    | ok b => exfalso; simp [validateResources, hnav] at hv
    | error e => exact ⟨e, rfl⟩
  · constructor
    · intro h
      by_contra hnav
      rw [Bool.not_eq_true] at hnav
      simp [validateResources, hnav] at h
    · intro h
      simp only [validateResources, h, if_true]
  · intro h
    by_cases hav : (checkResources inp).available = true
    · simp [validateResources, hav] at h
    · rw [Bool.not_eq_true] at hav
      simp [validateResources, hav] at h

/-- C3 amended witness: at the 95%-storage input the amended theorem yields
the thrown error. -/
theorem validateResources_admission_gate_witness :
    ∃ e, validateResources storageFullInputs = Except.error e :=
  (validateResources_admission_gate storageFullInputs).2.1
    (by norm_num [storageFullInputs])

/-! ## TTL cache (`CacheService` in `repository-manager.ts`)

Entries carry the `timestamp` of their `set` and a `ttl` in milliseconds;
`isExpired` is `now > timestamp + ttl` (strict), and `get` deletes and hides
an expired entry.
-/

/-- `CacheEntry<T>`. -/
structure CacheEntry (α : Type) where
  data : α
  timestamp : Nat
  ttl : Nat
  deriving DecidableEq, Repr

/-- The `cache : Map<string, CacheEntry>` of a `CacheService` instance. -/
abbrev CacheState (α : Type) := List (String × CacheEntry α)

/-- `CacheService.isExpired`: `now > entry.timestamp + entry.ttl`. -/
def isExpired {α : Type} (e : CacheEntry α) (now : Nat) : Bool :=
  decide (e.timestamp + e.ttl < now)

/-- `CacheService.set(key, value, ttl)` at time `now`. -/
def cacheSet {α : Type} (c : CacheState α) (key : String) (v : α)
    (ttl now : Nat) : CacheState α :=
  setKey c key { data := v, timestamp := now, ttl := ttl }

/-- `CacheService.get(key)` at time `now`: `null` when missing; an expired
entry is deleted and reported `null`; otherwise the stored data. -/
def cacheGet {α : Type} (c : CacheState α) (key : String) (now : Nat) :
    Option α × CacheState α :=
  match getKey c key with
  | none => (none, c)
  | some e => if isExpired e now then (none, delKey c key) else (some e.data, c)

/-- C6 counterexample: at exactly `t = ttl` after `set` the entry is *not*
expired (`isExpired` is strict) and `get` still returns the stored value,
contradicting "absent for all t ≥ ttl". -/
theorem cacheGet_at_ttl_still_present :
    (cacheGet (cacheSet ([] : CacheState Nat) "k" 42 1000 0) "k" 1000).1 =
      some 42 ∧
    (1000 : Nat) ≤ 1000 ∧ some 42 ≠ (none : Option Nat) := by
  refine ⟨rfl, le_refl _, by decide⟩

/-- C6 amended: after `set(key, value, ttl)` at time `s`, `get(key)` at time
`s + t` returns the stored value for all `0 ≤ t ≤ ttl` and is absent for all
`t > ttl`; an expired entry reads the same as a key that was never set. -/
theorem cacheGet_ttl_window {α : Type} (c : CacheState α) (key : String)
    (v : α) (ttl s t : Nat) :
    (t ≤ ttl → (cacheGet (cacheSet c key v ttl s) key (s + t)).1 = some v)
    ∧ (ttl < t →
        (cacheGet (cacheSet c key v ttl s) key (s + t)).1 = none ∧
        (cacheGet (cacheSet c key v ttl s) key (s + t)).1 =
          (cacheGet ([] : CacheState α) key (s + t)).1) := by
  have hget : getKey (cacheSet c key v ttl s) key =
      some { data := v, timestamp := s, ttl := ttl } :=
    getKey_setKey_self c key _
  constructor
  · intro hle
    have hexp : isExpired { data := v, timestamp := s, ttl := ttl } (s + t) = false := by
      simp only [isExpired, decide_eq_false_iff_not, not_lt]
      omega
    simp [cacheGet, hget, hexp]
  · intro hlt
    have hexp : isExpired { data := v, timestamp := s, ttl := ttl } (s + t) = true := by
      simp only [isExpired, decide_eq_true_eq]
      omega
    constructor
    · simp [cacheGet, hget, hexp]
    · simp [cacheGet, hget, hexp, getKey]

/-- C6 amended witness: with `ttl = 1000`, the value is readable at `t = 1000`
and gone at `t = 1001`. -/
theorem cacheGet_ttl_window_witness :
    ((cacheGet (cacheSet ([] : CacheState Nat) "k" 7 1000 5) "k" (5 + 1000)).1 =
      some 7)
    ∧ ((cacheGet (cacheSet ([] : CacheState Nat) "k" 7 1000 5) "k" (5 + 1001)).1 =
        none) :=
  ⟨(cacheGet_ttl_window ([] : CacheState Nat) "k" 7 1000 5 1000).1 (by decide),
    ((cacheGet_ttl_window ([] : CacheState Nat) "k" 7 1000 5 1001).2 (by decide)).1⟩

/-! ## Status / retry manager (`status-manager.ts`)

State: `progressMap`, `retryAttempts` and the progress cache entries written
through `cacheService.cacheProgress`, plus the stream of notifications
emitted.  Errors are modelled by which of the three matching substrings
(`'rate limit'`, `'network'`, `'storage'`) their message contains; the three
registered strategies are tried in registration order.
-/

/-- `AnalysisStatus` from `src/types/interfaces.ts`. -/
inductive AnalysisStatus
  | pending | queued | inProgress | completed | failed | cancelled
  deriving DecidableEq, Repr

/-- `IAnalysisResult` (opaque to the status manager; two representative
fields). -/
structure IAnalysisResult where
  isLarp : Bool
  confidence : Nat
  deriving DecidableEq, Repr

/-- An `Error` as the retry strategies observe it: which matching substrings
its message contains. -/
structure ErrMsg where
  hasRateLimit : Bool
  hasNetwork : Bool
  hasStorage : Bool
  deriving DecidableEq, Repr

/-- The keys of `retryStrategies`, in registration order. -/
inductive StrategyId
  | rateLimit | network | storage
  deriving DecidableEq, Repr

/-- The `maxRetries` of each registered strategy
(`initializeRetryStrategies`). -/
def maxRetriesOf : StrategyId → Nat
  | StrategyId.rateLimit => 3
  | StrategyId.network => 5
  | StrategyId.storage => 2

/-- `findRetryStrategy`: the first strategy in registration order whose
`shouldRetry` matches. -/
def findRetryStrategy (e : ErrMsg) : Option StrategyId :=
  if e.hasRateLimit then some StrategyId.rateLimit
  else if e.hasNetwork then some StrategyId.network
  else if e.hasStorage then some StrategyId.storage
  else none

/-- Events emitted through the `NotificationService`. -/
inductive SMEvent
  | start (url : String)
  | progressUpdate (url : String) (pct : Nat)
  | queueUpdate (url : String) (position : Nat)
  | complete (url : String)
  | analysisError (url : String)
  deriving DecidableEq, Repr

/-- The `IAnalysisProgress` fields the status manager mutates. -/
structure AnalysisProgress where
  status : AnalysisStatus
  progress : Nat
  currentStep : String
  result : Option IAnalysisResult
  errorFlags : Option ErrMsg
  deriving DecidableEq, Repr

/-- A `StatusManager` instance's state, together with the cache entries and
notifications it has written. -/
structure SMState where
  progressMap : List (String × AnalysisProgress)
  retryAttempts : List (String × Nat)
  progressCache : List (String × Nat)
  events : List SMEvent
  deriving DecidableEq, Repr

/-- A freshly constructed `StatusManager`. -/
def emptySM : SMState := ⟨[], [], [], []⟩

/-- The record `initializeProgress` creates: Pending, 0%, "Initializing". -/
def freshProgress : AnalysisProgress :=
  { status := AnalysisStatus.pending, progress := 0,
    currentStep := "Initializing", result := none, errorFlags := none }

/-- `StatusManager.initializeProgress`. -/
def initializeProgress (s : SMState) (url : String) : SMState :=
  { s with
    progressMap := setKey s.progressMap url freshProgress,
    progressCache := setKey s.progressCache url 0,
    events := s.events ++ [SMEvent.start url] }

/-- `StatusManager.updateProgress(url, progress, status?)`; `queuePos` is the
value `queueService.getPosition` would report.  Returns unchanged when the
subject has no progress record. -/
def updateProgress (s : SMState) (url : String) (pct : Nat)
    (status : Option AnalysisStatus) (queuePos : Nat) : SMState :=
  match getKey s.progressMap url with
  | none => s
  | some p =>
      let p' := { p with progress := pct, status := status.getD p.status }
      let s' := { s with
        progressMap := setKey s.progressMap url p',
        progressCache := setKey s.progressCache url pct,
        events := s.events ++ [SMEvent.progressUpdate url pct] }
      if status = some AnalysisStatus.inProgress then
        { s' with events := s'.events ++ [SMEvent.queueUpdate url queuePos] }
      else s'

/-- `StatusManager.completeAnalysis`. -/
def completeAnalysis (s : SMState) (url : String) (result : IAnalysisResult) :
    SMState :=
  match getKey s.progressMap url with
  | none => s
  | some p =>
      { s with
        progressMap := setKey s.progressMap url
          { p with
            status := AnalysisStatus.completed, progress := 100,
            result := some result },
        progressCache := setKey s.progressCache url 100,
        events := s.events ++ [SMEvent.complete url] }

/-- `StatusManager.markAsFailed`: terminal Failed, error notification, and
progress-cache invalidation. -/
def markAsFailed (s : SMState) (url : String) (e : ErrMsg) : SMState :=
  match getKey s.progressMap url with
  | none => s
  | some p =>
      { s with
        progressMap := setKey s.progressMap url
          { p with
            status := AnalysisStatus.failed, errorFlags := some e },
        events := s.events ++ [SMEvent.analysisError url],
        progressCache := delKey s.progressCache url }

/-- `StatusManager.handleError`: false without a progress record; false (and
terminal Failed) without a matching strategy or with retries exhausted; else
increments the per-subject retry counter and reports retryable. -/
def handleError (s : SMState) (url : String) (e : ErrMsg) : Bool × SMState :=
  match getKey s.progressMap url with
  | none => (false, s)
  | some _ =>
      match findRetryStrategy e with
      | none => (false, markAsFailed s url e)
      | some strat =>
          let attempts := (getKey s.retryAttempts url).getD 0
          if maxRetriesOf strat ≤ attempts then (false, markAsFailed s url e)
          else (true, { s with retryAttempts := setKey s.retryAttempts url (attempts + 1) })

/-- `StatusManager.cleanup`: drops the progress record, the retry counter and
the cached progress. -/
def cleanup (s : SMState) (url : String) : SMState :=
  { s with
    progressMap := delKey s.progressMap url,
    retryAttempts := delKey s.retryAttempts url,
    progressCache := delKey s.progressCache url }

/-- `StatusManager.calculateBackoff` with the `Math.random() * 1000` jitter
made explicit: `min(1000 * 2^attempt, 30000) + jitter`. -/
def calculateBackoff (attempt : Nat) (jitter : ℚ) : ℚ :=
  min ((1000 : ℚ) * 2 ^ attempt) 30000 + jitter

/-- The delay the RATE_LIMIT strategy's `onRetry` sleeps when `handleError`
retries: `handleError` passes `attempts + 1` to `onRetry`, which sleeps
`calculateBackoff` of that attempt number.  `none` when no retry happens or a
different strategy governs. -/
def backoffDelayOnRetry (s : SMState) (url : String) (e : ErrMsg)
    (jitter : ℚ) : Option ℚ :=
  match getKey s.progressMap url with
  | none => none
  | some _ =>
      match findRetryStrategy e with
      | some StrategyId.rateLimit =>
          let attempts := (getKey s.retryAttempts url).getD 0
          if maxRetriesOf StrategyId.rateLimit ≤ attempts then none
          else some (calculateBackoff (attempts + 1) jitter)
      | _ => none

/-- `n` successive `handleError` calls for the same subject and error. -/
def handleErrorIter (url : String) (e : ErrMsg) : Nat → SMState → SMState
  | 0, s => s
  | n + 1, s => (handleError (handleErrorIter url e n s) url e).2

/-- State shape after `n` rate-limited `handleError` calls from a freshly
initialized record: one progress record for the subject, `min n 3` recorded
attempts (absent before the first call), Failed exactly once a fourth error
has arrived. -/
theorem handleErrorIter_state (url : String) (e : ErrMsg)
    (hrl : e.hasRateLimit = true) (n : Nat) :
    ∃ p : AnalysisProgress,
      (handleErrorIter url e n (initializeProgress emptySM url)).progressMap =
        [(url, p)] ∧
      (handleErrorIter url e n (initializeProgress emptySM url)).retryAttempts =
        (if n = 0 then [] else [(url, min n 3)]) ∧
      p.status = (if 4 ≤ n then AnalysisStatus.failed else AnalysisStatus.pending) := by
  induction n with
  | zero =>
      exact ⟨freshProgress,
        by simp [handleErrorIter, initializeProgress, emptySM, setKey],
        by simp [handleErrorIter, initializeProgress, emptySM],
        by simp [freshProgress]⟩
  | succ n ih =>
      obtain ⟨p, hpm, hra, hst⟩ := ih
      have hstep : handleErrorIter url e (n + 1) (initializeProgress emptySM url) =
          (handleError (handleErrorIter url e n (initializeProgress emptySM url))
            url e).2 := rfl
      have hget : getKey (handleErrorIter url e n
          (initializeProgress emptySM url)).progressMap url = some p := by
        rw [hpm]; simp [getKey]
      have hstrat : findRetryStrategy e = some StrategyId.rateLimit := by
        simp [findRetryStrategy, hrl]
      by_cases h3 : n < 3
      · -- retry granted: the counter advances, the record is untouched
        have hatt : (getKey (handleErrorIter url e n
            (initializeProgress emptySM url)).retryAttempts url).getD 0 = n := by
          rw [hra]
          by_cases h0 : n = 0
          · simp [h0, getKey]
          · simp [h0, getKey, Nat.min_eq_left (le_of_lt h3)]
        have hlt : ¬ maxRetriesOf StrategyId.rateLimit ≤
            (getKey (handleErrorIter url e n
              (initializeProgress emptySM url)).retryAttempts url).getD 0 := by
          rw [hatt]; simpa [maxRetriesOf] using h3
        refine ⟨p, ?_, ?_, ?_⟩
        · rw [hstep]
          simp only [handleError, hget, hstrat, if_neg hlt]
          exact hpm
        · rw [hstep]
          simp only [handleError, hget, hstrat, if_neg hlt]
          rw [hra]
          by_cases h0 : n = 0
          · subst h0
            simp [setKey, getKey]
          · have hmin : n ⊓ 3 = n := Nat.min_eq_left (le_of_lt h3)
            have hmin' : (n + 1) ⊓ 3 = n + 1 := Nat.min_eq_left (by omega)
            simp [h0, getKey, setKey, hmin, hmin']
        · rw [hst, if_neg (by omega : ¬ 4 ≤ n)]
          rw [if_neg (by omega : ¬ 4 ≤ n + 1)]
      · -- retries exhausted: `markAsFailed`
        have hn0 : n ≠ 0 := by omega
        have hatt : (getKey (handleErrorIter url e n
            (initializeProgress emptySM url)).retryAttempts url).getD 0 = 3 := by
          rw [hra]
          simp [hn0, getKey, Nat.min_eq_right (by omega : 3 ≤ n)]
        have hge : maxRetriesOf StrategyId.rateLimit ≤
            (getKey (handleErrorIter url e n
              (initializeProgress emptySM url)).retryAttempts url).getD 0 := by
          rw [hatt]
          exact le_refl 3
        refine ⟨{ p with status := AnalysisStatus.failed, errorFlags := some e },
          ?_, ?_, ?_⟩
        · rw [hstep]
          simp only [handleError, hget, hstrat, if_pos hge, markAsFailed]
          rw [hpm]
          simp [getKey, setKey]
        · rw [hstep]
          simp only [handleError, hget, hstrat, if_pos hge, markAsFailed, hget]
          rw [hra]
          simp only [hn0, if_false, if_neg (Nat.succ_ne_zero n)]
          rw [Nat.min_eq_right (by omega : 3 ≤ n),
            Nat.min_eq_right (by omega : 3 ≤ n + 1)]
        · show AnalysisStatus.failed =
            if 4 ≤ n + 1 then AnalysisStatus.failed else AnalysisStatus.pending
          rw [if_pos (by omega : 4 ≤ n + 1)]

/-- C4: from a fresh progress record, errors matching the RATE_LIMIT class
(`maxRetries = 3`) make `handleError` report retryable exactly on the first
three calls; the fourth call marks the subject terminally Failed, and every
further matching error is refused until `cleanup` resets the counter, after
which a re-initialized subject is retryable again. -/
theorem handleError_retries_exactly_three (url : String) (e : ErrMsg)
    (hrl : e.hasRateLimit = true) (n : Nat) :
    ((handleError (handleErrorIter url e n (initializeProgress emptySM url))
        url e).1 = true ↔ n < 3)
    ∧ (3 ≤ n → ∃ p,
        getKey (handleErrorIter url e (n + 1)
          (initializeProgress emptySM url)).progressMap url = some p ∧
        p.status = AnalysisStatus.failed)
    ∧ getKey (cleanup (handleErrorIter url e n
        (initializeProgress emptySM url)) url).retryAttempts url = none
    ∧ (handleError (initializeProgress (cleanup (handleErrorIter url e n
        (initializeProgress emptySM url)) url) url) url e).1 = true := by
  obtain ⟨p, hpm, hra, hst⟩ := handleErrorIter_state url e hrl n
  have hget : getKey (handleErrorIter url e n
      (initializeProgress emptySM url)).progressMap url = some p := by
    rw [hpm]; simp [getKey]
  have hstrat : findRetryStrategy e = some StrategyId.rateLimit := by
    simp [findRetryStrategy, hrl]
  have hatt : (getKey (handleErrorIter url e n
      (initializeProgress emptySM url)).retryAttempts url).getD 0 = min n 3 := by
    rw [hra]
    by_cases h0 : n = 0
    · simp [h0, getKey]
    · simp [h0, getKey]
  refine ⟨?_, ?_, ?_, ?_⟩
  · simp only [handleError, hget, hstrat, hatt, maxRetriesOf]
    by_cases h3 : 3 ≤ min n 3
    · simp only [if_pos h3]
      constructor
      · intro h; exact absurd h (by simp)
      · intro h; omega
    · simp only [if_neg h3]
      constructor
      · intro _; omega
      · intro _; trivial
  · intro h3
    obtain ⟨q, hqm, -, hqs⟩ := handleErrorIter_state url e hrl (n + 1)
    refine ⟨q, by rw [hqm]; simp [getKey], ?_⟩
    rw [hqs, if_pos (by omega : 4 ≤ n + 1)]
  · simp only [cleanup]
    rw [hra]
    by_cases h0 : n = 0
    · simp [h0, delKey, getKey]
    · simp [h0, delKey, getKey]
  · have hclean : (cleanup (handleErrorIter url e n
        (initializeProgress emptySM url)) url).retryAttempts = [] := by
      simp only [cleanup]
      rw [hra]
      by_cases h0 : n = 0
      · simp [h0, delKey]
      · simp [h0, delKey]
    have hget2 : getKey (initializeProgress (cleanup (handleErrorIter url e n
        (initializeProgress emptySM url)) url) url).progressMap url =
        some freshProgress := by
      simp only [initializeProgress]
      exact getKey_setKey_self _ _ _
    have hra2 : (initializeProgress (cleanup (handleErrorIter url e n
        (initializeProgress emptySM url)) url) url).retryAttempts = [] := by
      simp only [initializeProgress]
      exact hclean
    simp only [handleError, hget2, hstrat, hra2, getKey, Option.getD_none,
      maxRetriesOf]
    rw [if_neg (by omega : ¬ 3 ≤ 0)]

/-- C4 witness: concrete rate-limit error for subject `"r"`: the third call
is still retryable, and after the fourth error the record is Failed. -/
theorem handleError_retries_exactly_three_witness :
    ((handleError (handleErrorIter "r" ⟨true, false, false⟩ 2
        (initializeProgress emptySM "r")) "r" ⟨true, false, false⟩).1 = true)
    ∧ (∃ p, getKey (handleErrorIter "r" ⟨true, false, false⟩ (3 + 1)
          (initializeProgress emptySM "r")).progressMap "r" = some p ∧
        p.status = AnalysisStatus.failed) :=
  ⟨(handleError_retries_exactly_three "r" ⟨true, false, false⟩ rfl 2).1.mpr
      (by decide),
    (handleError_retries_exactly_three "r" ⟨true, false, false⟩ rfl 3).2.1
      (by decide)⟩

/-- C10: for a subject with no progress record, `updateProgress` and
`completeAnalysis` return with the whole state (records, cache, emitted
events, retry counters) unchanged, and `handleError` reports non-retryable
with the state unchanged. -/
theorem statusManager_noop_without_record (s : SMState) (url : String)
    (pct : Nat) (status : Option AnalysisStatus) (queuePos : Nat)
    (r : IAnalysisResult) (e : ErrMsg)
    (h : getKey s.progressMap url = none) :
    updateProgress s url pct status queuePos = s
    ∧ completeAnalysis s url r = s
    ∧ handleError s url e = (false, s) := by
  refine ⟨?_, ?_, ?_⟩ <;> simp [updateProgress, completeAnalysis, handleError, h]

/-- C10 witness: on a fresh manager every operation is a no-op for the
unknown subject `"r"`. -/
theorem statusManager_noop_without_record_witness :
    updateProgress emptySM "r" 50 none 0 = emptySM
    ∧ completeAnalysis emptySM "r" ⟨false, 80⟩ = emptySM
    ∧ handleError emptySM "r" ⟨true, false, false⟩ = (false, emptySM) :=
  statusManager_noop_without_record emptySM "r" 50 none 0 ⟨false, 80⟩
    ⟨true, false, false⟩ rfl

/-- C9: when `handleError` grants a retry under the RATE_LIMIT strategy with
`a` prior attempts, `onRetry` receives attempt number `a + 1` and sleeps
`min(1000 * 2^(a+1), 30000) + jitter` ms with `jitter ∈ [0, 1000)`; any such
delay is at most 31000 ms. -/
theorem backoff_exponential_with_jitter (s : SMState) (url : String)
    (e : ErrMsg) (a : Nat) (j : ℚ)
    (hrl : e.hasRateLimit = true) (hp : ∃ p, getKey s.progressMap url = some p)
    (ha : (getKey s.retryAttempts url).getD 0 = a) (hlt : a < 3)
    (hj0 : 0 ≤ j) (hj1 : j < 1000) :
    backoffDelayOnRetry s url e j =
      some (min ((1000 : ℚ) * 2 ^ (a + 1)) 30000 + j)
    ∧ ∀ d, backoffDelayOnRetry s url e j = some d → d ≤ 31000 := by
  obtain ⟨p, hp⟩ := hp
  have hstrat : findRetryStrategy e = some StrategyId.rateLimit := by
    simp [findRetryStrategy, hrl]
  have hnle : ¬ maxRetriesOf StrategyId.rateLimit ≤ a := by
    simpa [maxRetriesOf] using hlt
  have heq : backoffDelayOnRetry s url e j =
      some (min ((1000 : ℚ) * 2 ^ (a + 1)) 30000 + j) := by
    simp only [backoffDelayOnRetry, hp, hstrat, ha, calculateBackoff,
      if_neg hnle]
  refine ⟨heq, ?_⟩
  intro d hd
  rw [heq] at hd
  have hd' : min ((1000 : ℚ) * 2 ^ (a + 1)) 30000 + j = d := Option.some.inj hd
  have hmin : min ((1000 : ℚ) * 2 ^ (a + 1)) 30000 ≤ 30000 := min_le_right _ _
  rw [← hd']
  linarith

/-- C9 witness: first retry (`a = 0`) with jitter 500 sleeps
`min(2000, 30000) + 500 = 2500 ≤ 31000` ms. -/
theorem backoff_exponential_with_jitter_witness :
    backoffDelayOnRetry (initializeProgress emptySM "r") "r"
      ⟨true, false, false⟩ (500 : ℚ) =
      some (min ((1000 : ℚ) * 2 ^ (0 + 1)) 30000 + 500) :=
  (backoff_exponential_with_jitter (initializeProgress emptySM "r") "r"
    ⟨true, false, false⟩ 0 500 rfl
    ⟨freshProgress, by simp [initializeProgress, emptySM, setKey, getKey]⟩
    (by simp [initializeProgress, emptySM, getKey])
    (by omega) (by norm_num) (by norm_num)).1

/-! ## Orchestrator staged execution (`AnalysisOrchestrator.processQueue`)

`processQueue` runs a dequeued item through: progress 10 (determine method),
20 (analyzing via the chosen method), primary fetch (`executeAnalysis`),
80 (AI analysis), 90 (finalize), completion at 100.  A thrown error lands in
the catch handler, which attempts the CLONE fallback exactly when
`progress.fallbackAvailable && progress.analysisMethod === API`, resetting
progress to 30 for the fallback segment; a fallback failure (or a failure
with no fallback) ends Failed.

The route comes from `determineAnalysisMethod`, whose implementation is not
under `src/` (only its callers are); routes are therefore modelled from the
spec (§4.6): a chosen method may declare `fallbackAvailable`, and the only
method with a declared fallback hop in this pipeline is API (falling back to
CLONE).
-/

/-- The analysis methods `repository.service.ts` references (`API`, `CLONE`,
`FAILED`) alongside the registered strategy methods. -/
inductive PipeMethod
  | api | clone | quick | deep | fallback | failed
  deriving DecidableEq, Repr

/-- Modelled from the spec: the route record `determineAnalysisMethod`
returns — the chosen method and its declared `fallbackAvailable` flag.  The
router implementation is missing from `src/`. -/
structure AnalysisRoute where
  method : PipeMethod
  fallbackAvailable : Bool
  deriving DecidableEq, Repr

/-- Modelled from the spec: §4.6 lets a route declare `fallbackAvailable`
only when its method has a fallback hop, and the pipeline's only hop is
API → CLONE; so a well-formed route with `fallbackAvailable` has chosen the
API method. -/
def routeWellFormed (r : AnalysisRoute) : Prop :=
  r.fallbackAvailable = true → r.method = PipeMethod.api

/-- Outcome of one awaited stage (`executeAnalysis` / `analyzeCode`). -/
inductive StageResult
  | ok | err
  deriving DecidableEq, Repr

/-- One assignment to `progress.progress`, with whether the record is in a
terminal state at that instant. -/
structure Checkpoint where
  pct : Nat
  terminal : Bool
  deriving DecidableEq, Repr

/-- The observable outcome of `processQueue` on one item: how many fallback
attempts ran, the final queue status, and the progress checkpoints in
order. -/
structure PipelineRun where
  fallbackAttempts : Nat
  finalStatus : QueueStatus
  trace : List Checkpoint
  deriving DecidableEq, Repr

/-- The catch handler of `processQueue`: one CLONE fallback attempt iff
`fallbackAvailable && analysisMethod === API`, else mark Failed. -/
def catchHandler (route : AnalysisRoute) (fallbackFetch fallbackAnalyze : StageResult)
    (pre : List Checkpoint) : PipelineRun :=
  if route.fallbackAvailable = true ∧ route.method = PipeMethod.api then
    let t := pre ++ [{ pct := 30, terminal := false }]
    match fallbackFetch with
    | StageResult.err => { fallbackAttempts := 1, finalStatus := QueueStatus.failed, trace := t }
    | StageResult.ok =>
        let t := t ++ [{ pct := 80, terminal := false }]
        match fallbackAnalyze with
        | StageResult.err =>
            { fallbackAttempts := 1, finalStatus := QueueStatus.failed, trace := t }
        | StageResult.ok =>
            { fallbackAttempts := 1, finalStatus := QueueStatus.completed,
              trace := t ++ [{ pct := 90, terminal := false },
                { pct := 100, terminal := true }] }
  else { fallbackAttempts := 0, finalStatus := QueueStatus.failed, trace := pre }

/-- `processQueue` on one dequeued item, as a function of the route and the
outcomes of the four awaited stages. -/
def processItem (route : AnalysisRoute)
    (primaryFetch primaryAnalyze fallbackFetch fallbackAnalyze : StageResult) :
    PipelineRun :=
  let t0 := [{ pct := 10, terminal := false }]
  if route.method = PipeMethod.failed then
    catchHandler route fallbackFetch fallbackAnalyze t0
  else
    let t1 := t0 ++ [{ pct := 20, terminal := false }]
    match primaryFetch with
    | StageResult.err => catchHandler route fallbackFetch fallbackAnalyze t1
    | StageResult.ok =>
        let t2 := t1 ++ [{ pct := 80, terminal := false }]
        match primaryAnalyze with
        | StageResult.err => catchHandler route fallbackFetch fallbackAnalyze t2
        | StageResult.ok =>
            { fallbackAttempts := 0, finalStatus := QueueStatus.completed,
              trace := t2 ++ [{ pct := 90, terminal := false },
                { pct := 100, terminal := true }] }

/-- No run of `processItem` ever makes more than one fallback attempt. -/
theorem processItem_fallback_le_one (route : AnalysisRoute)
    (pf pa ff fa : StageResult) :
    (processItem route pf pa ff fa).fallbackAttempts ≤ 1 := by
  obtain ⟨m, fb⟩ := route
  cases m <;> cases fb <;> cases pf <;> cases pa <;> cases ff <;> cases fa <;>
    decide

/-- C5: when the primary path fails (route determination, fetch, or AI
analysis) and the route declared `fallbackAvailable`, the pipeline makes
exactly one fallback attempt; if that attempt's fetch or analysis also
fails, the run terminates Failed — and no run ever makes a second fallback
attempt. -/
theorem fallback_executed_exactly_once (route : AnalysisRoute)
    (pf pa ff fa : StageResult) (hwf : routeWellFormed route)
    (hfb : route.fallbackAvailable = true)
    (hfail : pf = StageResult.err ∨ (pf = StageResult.ok ∧ pa = StageResult.err)) :
    (processItem route pf pa ff fa).fallbackAttempts = 1
    ∧ ((ff = StageResult.err ∨ (ff = StageResult.ok ∧ fa = StageResult.err)) →
        (processItem route pf pa ff fa).finalStatus = QueueStatus.failed)
    ∧ (∀ (r' : AnalysisRoute) (pf' pa' ff' fa' : StageResult),
        (processItem r' pf' pa' ff' fa').fallbackAttempts ≤ 1) := by
  have hapi : route.method = PipeMethod.api := hwf hfb
  obtain ⟨m, fb⟩ := route
  simp only at hapi hfb
  subst hapi
  subst hfb
  refine ⟨?_, ?_, fun r' pf' pa' ff' fa' => processItem_fallback_le_one r' pf' pa' ff' fa'⟩
  · rcases hfail with hpf | ⟨hpf, hpa⟩
    · subst hpf
      cases pa <;> cases ff <;> cases fa <;> decide
    · subst hpf; subst hpa
      cases ff <;> cases fa <;> decide
  · intro hf
    rcases hfail with hpf | ⟨hpf, hpa⟩ <;>
      rcases hf with hff | ⟨hff, hfa⟩
    · subst hpf; subst hff
      cases pa <;> cases fa <;> decide
    · subst hpf; subst hff; subst hfa
      cases pa <;> decide
    · subst hpf; subst hpa; subst hff
      cases fa <;> decide
    · subst hpf; subst hpa; subst hff; subst hfa
      decide

/-- C5 witness: primary fetch fails with an API route declaring fallback;
the fallback fetch also fails: exactly one fallback attempt and a Failed
end. -/
theorem fallback_executed_exactly_once_witness :
    (processItem ⟨PipeMethod.api, true⟩ StageResult.err StageResult.ok
        StageResult.err StageResult.ok).fallbackAttempts = 1
    ∧ (processItem ⟨PipeMethod.api, true⟩ StageResult.err StageResult.ok
        StageResult.err StageResult.ok).finalStatus = QueueStatus.failed :=
  ⟨(fallback_executed_exactly_once ⟨PipeMethod.api, true⟩ StageResult.err
      StageResult.ok StageResult.err StageResult.ok (fun _ => rfl) rfl
      (Or.inl rfl)).1,
    (fallback_executed_exactly_once ⟨PipeMethod.api, true⟩ StageResult.err
      StageResult.ok StageResult.err StageResult.ok (fun _ => rfl) rfl
      (Or.inl rfl)).2.1 (Or.inl rfl)⟩

/-- The claimed property: every pair of successive checkpoints that are both
non-terminal is non-decreasing in progress. -/
def traceMonotoneB : List Checkpoint → Bool
  | [] => true
  | [_] => true
  | a :: b :: rest =>
      (a.terminal || b.terminal || decide (a.pct ≤ b.pct)) &&
        traceMonotoneB (b :: rest)

/-- C7 counterexample: primary AI analysis fails at progress 80 with a
fallback available; entering the fallback resets progress to 30 while the
record is still non-terminal, so the observed progress sequence
`10, 20, 80, 30, 80, 90, 100` decreases between non-terminal checkpoints. -/
theorem progress_decreases_on_fallback :
    traceMonotoneB (processItem ⟨PipeMethod.api, true⟩ StageResult.ok
        StageResult.err StageResult.ok StageResult.ok).trace = false
    ∧ (processItem ⟨PipeMethod.api, true⟩ StageResult.ok StageResult.err
        StageResult.ok StageResult.ok).trace.map
          (fun c => (c.pct, c.terminal)) =
        [(10, false), (20, false), (80, false), (30, false), (80, false),
          (90, false), (100, true)] := by
  constructor <;> decide

/-- Every successive decrease of progress along the checkpoints is the reset
to 30 entering the fallback segment; all other adjacent steps are
non-decreasing. -/
def decreasesOnlyToFallbackResetB : List Checkpoint → Bool
  | [] => true
  | [_] => true
  | a :: b :: rest =>
      (decide (a.pct ≤ b.pct) || decide (b.pct = 30)) &&
        decreasesOnlyToFallbackResetB (b :: rest)

/-- C7 amended: along every run, `progress = 100` is written only with the
record already terminal, and every successive decrease of `progress` is the
reset to 30 on entering the fallback segment; within each segment progress
is non-decreasing. -/
theorem progress_monotone_except_fallback_reset (route : AnalysisRoute)
    (pf pa ff fa : StageResult) :
    (∀ c ∈ (processItem route pf pa ff fa).trace,
      c.pct = 100 → c.terminal = true)
    ∧ decreasesOnlyToFallbackResetB (processItem route pf pa ff fa).trace =
        true := by
  obtain ⟨m, fb⟩ := route
  cases m <;> cases fb <;> cases pf <;> cases pa <;> cases ff <;> cases fa <;>
    exact ⟨by decide, by decide⟩

end LARPChecker
